import Mathlib

/-!
# A verification development for the `rush` tokenizer

This file embeds `src/tokenizer.rs` of the `rush` repository into Lean:
the token data model, the character classification, the greedy scanning
loops for identifiers, numeric literals, strings and symbols, and the
single-pass drive loop `tokenize`.  Characters are modelled as Lean
`Char` (Rust `char` is likewise a Unicode scalar value), the input
buffer as a `List Char`, and indices as the character indices produced
by Rust's `chars().enumerate()`.  `String::len`, which Rust measures in
UTF-8 bytes, is modelled by `strLen` below.  A Rust panic (a failing
`.unwrap()`) is modelled by `Option.none`: the function does not return
at all on such inputs.
-/

namespace Rush

/-- The double-quote character (code 34). -/
def dquote : Char := Char.ofNat 34

/-- The single-quote character (code 39). -/
def squote : Char := Char.ofNat 39

/-- The backtick character (code 96). -/
def bquote : Char := Char.ofNat 96

/-- The opening-brace character (code 123). -/
def lbrace : Char := Char.ofNat 123

/-- The closing-brace character (code 125). -/
def rbrace : Char := Char.ofNat 125

/-- `enum Keyword { If, Fi }` from `tokenizer.rs`. -/
inductive Keyword where
  | If : Keyword
  | Fi : Keyword
deriving DecidableEq, Repr

/-- `enum Token` from `tokenizer.rs`. -/
inductive Token where
  | keyword : Keyword → Token
  | identifier : List Char → Token
  | integer : Int → Token
  | string : List Char → Char → Token
  | paren : Char → Token
  | symbol : List Char → Token
  | newline : Nat → Token
deriving DecidableEq, Repr

/-- `struct TokenWithInfo` from `tokenizer.rs`: start index, end index,
a reference to the whole source buffer, and the token itself. -/
structure TokenWithInfo where
  start : Nat
  «end» : Nat
  buffer : List Char
  token : Token
deriving DecidableEq, Repr

/-- The UTF-8 byte length of one character, as Rust's `char::len_utf8`. -/
def charUtf8Len (c : Char) : Nat :=
  if c.toNat < 128 then 1
  else if c.toNat < 2048 then 2
  else if c.toNat < 65536 then 3
  else 4

/-- The UTF-8 byte length of a piece of text, as Rust's `String::len`. -/
def strLen (s : List Char) : Nat :=
  (s.map charUtf8Len).sum

/-- `i64::MAX`. -/
def i64Max : Nat := 9223372036854775807

/-- Rust range pattern `'0'..='9'`. -/
def isDigit10 (c : Char) : Bool :=
  ('0' ≤ c && c ≤ '9')

/-- Rust range patterns `'0'..='9' | 'a'..='f' | 'A'..='F'`. -/
def isHexDigit (c : Char) : Bool :=
  isDigit10 c || ('a' ≤ c && c ≤ 'f') || ('A' ≤ c && c ≤ 'F')

/-- Rust range patterns `'a'..='z' | 'A'..='Z' | '_'`: a character that
may start an identifier. -/
def isIdentStart (c : Char) : Bool :=
  ('a' ≤ c && c ≤ 'z') || ('A' ≤ c && c ≤ 'Z') || c = '_'

/-- Rust range patterns `'a'..='z' | 'A'..='Z' | '_' | '0'..='9'`: a
character that may continue an identifier. -/
def isIdentCont (c : Char) : Bool :=
  isIdentStart c || isDigit10 c

/-- Rust pattern `'{' | '}' | '(' | ')' | '[' | ']'`. -/
def isParen (c : Char) : Bool :=
  c = lbrace || c = rbrace || c = '(' || c = ')' || c = '[' || c = ']'

/-- Rust pattern `'"' | '\'' | '\u{60}'`: the three quote characters. -/
def isQuote (c : Char) : Bool :=
  c = dquote || c = squote || c = bquote

/-- Rust range patterns `'!'..='/' | ':'..='@' | '['..=backtick |
brace..='~'`: the ASCII punctuation ranges of the symbol arm. -/
def isSymbolStart (c : Char) : Bool :=
  ('!' ≤ c && c ≤ '/') || (':' ≤ c && c ≤ '@') ||
  ('[' ≤ c && c ≤ bquote) || (lbrace ≤ c && c ≤ '~')

/-- Numeric value of one hex digit. -/
def hexDigitVal (c : Char) : Nat :=
  if isDigit10 c then c.toNat - '0'.toNat
  else if 'a' ≤ c && c ≤ 'f' then c.toNat - 'a'.toNat + 10
  else if 'A' ≤ c && c ≤ 'F' then c.toNat - 'A'.toNat + 10
  else 0

/-- Base-16 value of a run of hex digits. -/
def hexVal (s : List Char) : Nat :=
  s.foldl (fun a c => a * 16 + hexDigitVal c) 0

/-- Base-10 value of a run of decimal digits. -/
def decVal (s : List Char) : Nat :=
  s.foldl (fun a c => a * 10 + (c.toNat - '0'.toNat)) 0

/-- `i64::from_str_radix(s, 16)` on the strings the tokenizer feeds it
(runs of consumed characters, never a sign): `none` (an `Err`) on the
empty string, on a non-hex-digit, and on overflow past `i64::MAX`. -/
def fromStrRadix16 (s : List Char) : Option Int :=
  if s.isEmpty then none
  else if s.all isHexDigit then
    if hexVal s ≤ i64Max then some ((hexVal s : Int)) else none
  else none

/-- `i64::from_str(s)` on the strings the tokenizer feeds it (runs of
consumed characters, never a sign): `none` (an `Err`) on the empty
string, on a non-digit, and on overflow past `i64::MAX`. -/
def fromStrI64 (s : List Char) : Option Int :=
  if s.isEmpty then none
  else if s.all isDigit10 then
    if decVal s ≤ i64Max then some ((decVal s : Int)) else none
  else none

/-- `Keyword::from_str` as derived by strum with
`serialize_all = "lowercase"`: an exact, case-sensitive match against
the lowercase names of the two variants. -/
def keywordFromStr (s : List Char) : Option Keyword :=
  if s = ['i', 'f'] then some Keyword.If
  else if s = ['f', 'i'] then some Keyword.Fi
  else none

/-- The greedy `while let Some((_, next)) = iter.peek()` loops of the
tokenizer: consume characters while they satisfy `p`, returning the
consumed run and the untouched remainder. -/
def consumeWhile (p : Char → Bool) : List Char → List Char × List Char
  | [] => ([], [])
  | c :: rest =>
    if p c then
      let r := consumeWhile p rest
      (c :: r.1, r.2)
    else ([], c :: rest)

/-- The string-scanning loop: consume characters until the matching
quote `q` (which is consumed and kept) or end of input, returning the
consumed run and the untouched remainder. -/
def scanString (q : Char) : List Char → List Char × List Char
  | [] => ([], [])
  | c :: rest =>
    if c = q then ([c], rest)
    else
      let r := scanString q rest
      (c :: r.1, r.2)

/-- The numeric arm of the tokenizer, for a first digit `c` and the
rest of the input.  Yields the raw literal text, its parsed value and
the remainder — or `none` when the `.unwrap()` of the parse panics.
The mode is decided by the single peeked character: `x` selects
hexadecimal (parsing `&raw[2..]`, i.e. the text after the first two
characters), another digit selects decimal, anything else leaves the
single digit. -/
def scanNumber (c : Char) (rest : List Char) : Option (List Char × Int × List Char) :=
  match rest with
  | x :: rest1 =>
    if x = 'x' then
      let r := consumeWhile isHexDigit rest1
      let raw := c :: 'x' :: r.1
      match fromStrRadix16 (raw.drop 2) with
      | some v => some (raw, v, r.2)
      | none => none
    else if isDigit10 x then
      let r := consumeWhile isDigit10 (x :: rest1)
      let raw := c :: r.1
      match fromStrI64 raw with
      | some v => some (raw, v, r.2)
      | none => none
    else
      match fromStrI64 [c] with
      | some v => some ([c], v, x :: rest1)
      | none => none
  | [] =>
    match fromStrI64 [c] with
    | some v => some ([c], v, [])
    | none => none

/-- The fixed two-character symbol table: the Rust code concatenates
the current character and the lookahead and matches the result against
ten string literals. -/
def isTwoCharSymbol (a b : Char) : Bool :=
  (a = '>' && b = '>') || (a = '<' && b = '<') ||
  (a = '=' && b = '=') || (a = '!' && b = '=') ||
  (a = '<' && b = '=') || (a = '>' && b = '=') ||
  (a = '&' && b = '&') || (a = '|' && b = '|') ||
  (a = '+' && b = '=') || (a = '-' && b = '=')

theorem consumeWhile_snd_length_le (p : Char → Bool) :
    ∀ l : List Char, (consumeWhile p l).2.length ≤ l.length := by
  intro l
  induction l with
  | nil => simp [consumeWhile]
  | cons c rest ih =>
    by_cases h : p c
    · simp only [consumeWhile, h, if_true]
      exact Nat.le_trans ih (Nat.le_succ _)
    · simp [consumeWhile, h]

theorem scanString_snd_length_le (q : Char) :
    ∀ l : List Char, (scanString q l).2.length ≤ l.length := by
  intro l
  induction l with
  | nil => simp [scanString]
  | cons c rest ih =>
    by_cases h : c = q
    · simp [scanString, h]
    · simp only [scanString, h, if_false]
      exact Nat.le_trans ih (Nat.le_succ _)

theorem scanNumber_snd_length_le (c : Char) (rest : List Char)
    (raw : List Char) (v : Int) (rest2 : List Char)
    (h : scanNumber c rest = some (raw, v, rest2)) :
    rest2.length ≤ rest.length := by
  match rest with
  | [] =>
    simp only [scanNumber] at h
    cases hf : fromStrI64 [c] with
    | none => rw [hf] at h; exact absurd h (by simp)
    | some v0 =>
      rw [hf] at h
      simp only [Option.some.injEq, Prod.mk.injEq] at h
      obtain ⟨h1, h2, h3⟩ := h
      simp [← h3]
  | x :: rest1 =>
    simp only [scanNumber] at h
    by_cases hx : x = 'x'
    · simp only [hx, if_true] at h
      cases hf : fromStrRadix16 ((c :: 'x' :: (consumeWhile isHexDigit rest1).1).drop 2) with
      | none => rw [hf] at h; exact absurd h (by simp)
      | some v0 =>
        rw [hf] at h
        simp only [Option.some.injEq, Prod.mk.injEq] at h
        obtain ⟨-, -, h2⟩ := h
        calc rest2.length = (consumeWhile isHexDigit rest1).2.length := by rw [← h2]
          _ ≤ rest1.length := consumeWhile_snd_length_le _ _
          _ ≤ (x :: rest1).length := Nat.le_succ _
    · simp only [hx, if_false] at h
      by_cases hd : isDigit10 x
      · simp only [hd, if_true] at h
        cases hf : fromStrI64 (c :: (consumeWhile isDigit10 (x :: rest1)).1) with
        | none => rw [hf] at h; exact absurd h (by simp)
        | some v0 =>
          rw [hf] at h
          simp only [Option.some.injEq, Prod.mk.injEq] at h
          obtain ⟨h1, h2, h3⟩ := h
          calc rest2.length = (consumeWhile isDigit10 (x :: rest1)).2.length := by rw [← h3]
            _ ≤ (x :: rest1).length := consumeWhile_snd_length_le _ _
      · simp only [hd, Bool.false_eq_true, if_false] at h
        cases hf : fromStrI64 [c] with
        | none => rw [hf] at h; exact absurd h (by simp)
        | some v0 =>
          rw [hf] at h
          simp only [Option.some.injEq, Prod.mk.injEq] at h
          obtain ⟨h1, h2, h3⟩ := h
          simp [← h3]

/-- The drive loop of `tokenize`: `buffer` is the full source (shared
by every emitted token), `i` the character index of the next character,
`line` the current line counter, and the final argument the remaining
input.  Branches appear in the order of the Rust `match` arms; the two
silent arms (space/tab, and the catch-all that merely prints the
ignored character) both emit nothing. -/
def tokenizeLoop (buffer : List Char) : Nat → Nat → List Char → Option (List TokenWithInfo)
  | _, _, [] => some []
  | i, line, c :: rest =>
    if c = '\n' then
      (tokenizeLoop buffer (i + 1) (line + 1) rest).map
        (fun ts => ⟨i, i + 1, buffer, Token.newline line⟩ :: ts)
    else if isIdentStart c then
      let r := consumeWhile isIdentCont rest
      let identifier := c :: r.1
      let tok :=
        match keywordFromStr identifier with
        | some kw => Token.keyword kw
        | none => Token.identifier identifier
      (tokenizeLoop buffer (i + identifier.length) line r.2).map
        (fun ts => ⟨i, i + strLen identifier, buffer, tok⟩ :: ts)
    else if isDigit10 c then
      match h : scanNumber c rest with
      | none => none
      | some r3 =>
        (tokenizeLoop buffer (i + r3.1.length) line r3.2.2).map
          (fun ts => ⟨i, i + strLen r3.1, buffer, Token.integer r3.2.1⟩ :: ts)
    else if isParen c then
      (tokenizeLoop buffer (i + 1) line rest).map
        (fun ts => ⟨i, i + 1, buffer, Token.paren c⟩ :: ts)
    else if isQuote c then
      let r := scanString c rest
      let raw := c :: r.1
      (tokenizeLoop buffer (i + raw.length) line r.2).map
        (fun ts => ⟨i, i + strLen raw, buffer, Token.string raw c⟩ :: ts)
    else if isSymbolStart c then
      match rest with
      | next :: rest1 =>
        if isTwoCharSymbol c next then
          (tokenizeLoop buffer (i + 2) line rest1).map
            (fun ts => ⟨i, i + strLen [c, next], buffer, Token.symbol [c, next]⟩ :: ts)
        else
          (tokenizeLoop buffer (i + 1) line (next :: rest1)).map
            (fun ts => ⟨i, i + strLen [c], buffer, Token.symbol [c]⟩ :: ts)
      | [] =>
        (tokenizeLoop buffer (i + 1) line []).map
          (fun ts => ⟨i, i + strLen [c], buffer, Token.symbol [c]⟩ :: ts)
    else
      tokenizeLoop buffer (i + 1) line rest
  termination_by _ _ l => l.length
  decreasing_by
  all_goals simp_wf
  all_goals first
    | exact Nat.lt_succ_of_le (consumeWhile_snd_length_le _ _)
    | exact Nat.lt_succ_of_le (scanNumber_snd_length_le _ _ _ _ _ h)
    | exact Nat.lt_succ_of_le (scanString_snd_length_le _ _)
    | exact Nat.lt_succ_of_le (Nat.le_refl _)
    | exact Nat.lt_succ_of_le (Nat.le_succ _)

/-- `pub fn tokenize(string: Rc<String>) -> Result<Vec<TokenWithInfo>, ()>`:
run the drive loop from index 0 and line 1 and wrap the accumulated
tokens in `Ok` — the only `return` of the Rust function.  The outer
`Option` models a panic (`none`: the function never returns). -/
def tokenize (s : List Char) : Option (Except Unit (List TokenWithInfo)) :=
  (tokenizeLoop s 0 1 s).map Except.ok


theorem tokenizeLoop_nil (buffer : List Char) (i line : Nat) :
    tokenizeLoop buffer i line [] = some [] :=
  tokenizeLoop.eq_1 buffer i line

theorem tokenizeLoop_newline (buffer : List Char) (i line : Nat) (rest : List Char) :
    tokenizeLoop buffer i line ('\n' :: rest) =
      (tokenizeLoop buffer (i + 1) (line + 1) rest).map
        (fun ts => ⟨i, i + 1, buffer, Token.newline line⟩ :: ts) := by
  cases rest with
  | nil => rw [tokenizeLoop.eq_3]; simp
  | cons x rest1 => rw [tokenizeLoop.eq_2]; simp

theorem tokenizeLoop_ident (buffer : List Char) (i line : Nat) (c : Char) (rest : List Char)
    (h1 : ¬ c = '\n') (h2 : isIdentStart c = true) :
    tokenizeLoop buffer i line (c :: rest) =
      (tokenizeLoop buffer (i + (c :: (consumeWhile isIdentCont rest).1).length) line
          (consumeWhile isIdentCont rest).2).map
        (fun ts =>
          ⟨i, i + strLen (c :: (consumeWhile isIdentCont rest).1), buffer,
            match keywordFromStr (c :: (consumeWhile isIdentCont rest).1) with
            | some kw => Token.keyword kw
            | none => Token.identifier (c :: (consumeWhile isIdentCont rest).1)⟩ :: ts) := by
  cases rest with
  | nil => rw [tokenizeLoop.eq_3]; simp [h1, h2]
  | cons x rest1 => rw [tokenizeLoop.eq_2]; simp [h1, h2]

theorem tokenizeLoop_number_none (buffer : List Char) (i line : Nat) (c : Char) (rest : List Char)
    (h1 : ¬ c = '\n') (h2 : isIdentStart c = false) (h3 : isDigit10 c = true)
    (h4 : scanNumber c rest = none) :
    tokenizeLoop buffer i line (c :: rest) = none := by
  cases rest with
  | nil =>
    rw [tokenizeLoop.eq_3]
    simp only [h1, h2, h3, Bool.false_eq_true, if_false, if_true]
    split
    · rfl
    · next r3 heq => rw [h4] at heq; exact absurd heq (by simp)
  | cons x rest1 =>
    rw [tokenizeLoop.eq_2]
    simp only [h1, h2, h3, Bool.false_eq_true, if_false, if_true]
    split
    · rfl
    · next r3 heq => rw [h4] at heq; exact absurd heq (by simp)

theorem tokenizeLoop_number_some (buffer : List Char) (i line : Nat) (c : Char)
    (rest raw : List Char) (v : Int) (rest2 : List Char)
    (h1 : ¬ c = '\n') (h2 : isIdentStart c = false) (h3 : isDigit10 c = true)
    (h4 : scanNumber c rest = some (raw, v, rest2)) :
    tokenizeLoop buffer i line (c :: rest) =
      (tokenizeLoop buffer (i + raw.length) line rest2).map
        (fun ts => ⟨i, i + strLen raw, buffer, Token.integer v⟩ :: ts) := by
  cases rest with
  | nil =>
    rw [tokenizeLoop.eq_3]
    simp only [h1, h2, h3, Bool.false_eq_true, if_false, if_true]
    split
    · next heq => rw [h4] at heq; exact absurd heq (by simp)
    · next r3 heq =>
        rw [h4] at heq
        simp only [Option.some.injEq] at heq
        subst heq
        rfl
  | cons x rest1 =>
    rw [tokenizeLoop.eq_2]
    simp only [h1, h2, h3, Bool.false_eq_true, if_false, if_true]
    split
    · next heq => rw [h4] at heq; exact absurd heq (by simp)
    · next r3 heq =>
        rw [h4] at heq
        simp only [Option.some.injEq] at heq
        subst heq
        rfl

theorem tokenizeLoop_paren (buffer : List Char) (i line : Nat) (c : Char) (rest : List Char)
    (h1 : ¬ c = '\n') (h2 : isIdentStart c = false) (h3 : isDigit10 c = false)
    (h4 : isParen c = true) :
    tokenizeLoop buffer i line (c :: rest) =
      (tokenizeLoop buffer (i + 1) line rest).map
        (fun ts => ⟨i, i + 1, buffer, Token.paren c⟩ :: ts) := by
  cases rest with
  | nil => rw [tokenizeLoop.eq_3]; simp [h1, h2, h3, h4]
  | cons x rest1 => rw [tokenizeLoop.eq_2]; simp [h1, h2, h3, h4]

theorem tokenizeLoop_string (buffer : List Char) (i line : Nat) (c : Char) (rest : List Char)
    (h1 : ¬ c = '\n') (h2 : isIdentStart c = false) (h3 : isDigit10 c = false)
    (h4 : isParen c = false) (h5 : isQuote c = true) :
    tokenizeLoop buffer i line (c :: rest) =
      (tokenizeLoop buffer (i + (c :: (scanString c rest).1).length) line
          (scanString c rest).2).map
        (fun ts =>
          ⟨i, i + strLen (c :: (scanString c rest).1), buffer,
            Token.string (c :: (scanString c rest).1) c⟩ :: ts) := by
  cases rest with
  | nil => rw [tokenizeLoop.eq_3]; simp [h1, h2, h3, h4, h5]
  | cons x rest1 => rw [tokenizeLoop.eq_2]; simp [h1, h2, h3, h4, h5]

theorem tokenizeLoop_symbol_two (buffer : List Char) (i line : Nat) (c next : Char)
    (rest1 : List Char)
    (h1 : ¬ c = '\n') (h2 : isIdentStart c = false) (h3 : isDigit10 c = false)
    (h4 : isParen c = false) (h5 : isQuote c = false) (h6 : isSymbolStart c = true)
    (h7 : isTwoCharSymbol c next = true) :
    tokenizeLoop buffer i line (c :: next :: rest1) =
      (tokenizeLoop buffer (i + 2) line rest1).map
        (fun ts => ⟨i, i + strLen [c, next], buffer, Token.symbol [c, next]⟩ :: ts) := by
  rw [tokenizeLoop.eq_2]; simp [h1, h2, h3, h4, h5, h6, h7]

theorem tokenizeLoop_symbol_one (buffer : List Char) (i line : Nat) (c next : Char)
    (rest1 : List Char)
    (h1 : ¬ c = '\n') (h2 : isIdentStart c = false) (h3 : isDigit10 c = false)
    (h4 : isParen c = false) (h5 : isQuote c = false) (h6 : isSymbolStart c = true)
    (h7 : isTwoCharSymbol c next = false) :
    tokenizeLoop buffer i line (c :: next :: rest1) =
      (tokenizeLoop buffer (i + 1) line (next :: rest1)).map
        (fun ts => ⟨i, i + strLen [c], buffer, Token.symbol [c]⟩ :: ts) := by
  rw [tokenizeLoop.eq_2]; simp [h1, h2, h3, h4, h5, h6, h7]

theorem tokenizeLoop_symbol_end (buffer : List Char) (i line : Nat) (c : Char)
    (h1 : ¬ c = '\n') (h2 : isIdentStart c = false) (h3 : isDigit10 c = false)
    (h4 : isParen c = false) (h5 : isQuote c = false) (h6 : isSymbolStart c = true) :
    tokenizeLoop buffer i line [c] =
      (tokenizeLoop buffer (i + 1) line []).map
        (fun ts => ⟨i, i + strLen [c], buffer, Token.symbol [c]⟩ :: ts) := by
  rw [tokenizeLoop.eq_3]; simp [h1, h2, h3, h4, h5, h6]

theorem tokenizeLoop_skip (buffer : List Char) (i line : Nat) (c : Char) (rest : List Char)
    (h1 : ¬ c = '\n') (h2 : isIdentStart c = false) (h3 : isDigit10 c = false)
    (h4 : isParen c = false) (h5 : isQuote c = false) (h6 : isSymbolStart c = false) :
    tokenizeLoop buffer i line (c :: rest) = tokenizeLoop buffer (i + 1) line rest := by
  cases rest with
  | nil => rw [tokenizeLoop.eq_3]; simp [h1, h2, h3, h4, h5, h6]
  | cons x rest1 => rw [tokenizeLoop.eq_2]; simp [h1, h2, h3, h4, h5, h6]

theorem toNat_bounds_of_isDigit10 (c : Char) (h : isDigit10 c = true) :
    48 ≤ c.toNat ∧ c.toNat ≤ 57 := by
  simp only [isDigit10, Bool.and_eq_true, decide_eq_true_iff] at h
  exact ⟨h.1, h.2⟩

theorem isIdentStart_eq_false_of_isDigit10 (c : Char) (h : isDigit10 c = true) :
    isIdentStart c = false := by
  have hd := toNat_bounds_of_isDigit10 c h
  rw [Bool.eq_false_iff]
  intro hcon
  simp only [isIdentStart, Bool.or_eq_true, Bool.and_eq_true, decide_eq_true_iff] at hcon
  rcases hcon with (⟨h1, h2⟩ | ⟨h1, h2⟩) | h1
  · have : (97 : Nat) ≤ c.toNat := h1
    omega
  · have h65 : (65 : Nat) ≤ c.toNat := h1
    omega
  · subst h1
    simp at hd

theorem ne_newline_of_isDigit10 (c : Char) (h : isDigit10 c = true) : ¬ c = '\n' := by
  intro hc
  subst hc
  exact absurd h (by decide)

theorem ne_newline_of_isHexDigit (c : Char) (h : isHexDigit c = true) : ¬ c = '\n' := by
  intro hc
  subst hc
  exact absurd h (by decide)

theorem ne_newline_of_isIdentCont (c : Char) (h : isIdentCont c = true) : ¬ c = '\n' := by
  intro hc
  subst hc
  exact absurd h (by decide)

theorem ne_newline_of_isTwoCharSymbol (a b : Char) (h : isTwoCharSymbol a b = true) :
    ¬ b = '\n' := by
  intro hb
  subst hb
  simp [isTwoCharSymbol] at h

theorem consumeWhile_append (p : Char → Bool) :
    ∀ l : List Char, (consumeWhile p l).1 ++ (consumeWhile p l).2 = l := by
  intro l
  induction l with
  | nil => simp [consumeWhile]
  | cons c rest ih =>
    by_cases h : p c
    · simp [consumeWhile, h, ih]
    · simp [consumeWhile, h]

theorem consumeWhile_all (p : Char → Bool) :
    ∀ l : List Char, ∀ c ∈ (consumeWhile p l).1, p c = true := by
  intro l
  induction l with
  | nil => simp [consumeWhile]
  | cons c rest ih =>
    by_cases h : p c
    · simp only [consumeWhile, h, if_true, List.mem_cons]
      rintro d (rfl | hd)
      · exact h
      · exact ih d hd
    · simp [consumeWhile, h]

theorem consumeWhile_exact (p : Char → Bool) :
    ∀ a r : List Char, (∀ c ∈ a, p c = true) →
      (∀ c, r.head? = some c → p c = false) →
      consumeWhile p (a ++ r) = (a, r) := by
  intro a
  induction a with
  | nil =>
    intro r _ hr
    cases r with
    | nil => simp [consumeWhile]
    | cons c r1 =>
      have := hr c (by simp)
      simp [consumeWhile, this]
  | cons c a1 ih =>
    intro r ha hr
    have hc : p c = true := ha c (by simp)
    have := ih r (fun d hd => ha d (by simp [hd])) hr
    simp [consumeWhile, hc, this]

theorem scanString_append (q : Char) :
    ∀ l : List Char, (scanString q l).1 ++ (scanString q l).2 = l := by
  intro l
  induction l with
  | nil => simp [scanString]
  | cons c rest ih =>
    by_cases h : c = q
    · simp [scanString, h]
    · simp [scanString, h, ih]

theorem scanString_of_not_mem (q : Char) :
    ∀ l : List Char, q ∉ l → scanString q l = (l, []) := by
  intro l
  induction l with
  | nil => intro _; simp [scanString]
  | cons c rest ih =>
    intro h
    have hc : ¬ c = q := fun hc => h (by simp [hc])
    have hr : q ∉ rest := fun hr => h (by simp [hr])
    simp [scanString, hc, ih hr]

theorem charUtf8Len_eq_one (c : Char) (h : c.toNat < 128) : charUtf8Len c = 1 := by
  simp [charUtf8Len, h]

theorem strLen_eq_length (s : List Char) (h : ∀ c ∈ s, c.toNat < 128) :
    strLen s = s.length := by
  induction s with
  | nil => simp [strLen]
  | cons c rest ih =>
    have hc := charUtf8Len_eq_one c (h c (by simp))
    have hr := ih (fun d hd => h d (by simp [hd]))
    simp only [strLen, List.map_cons, List.sum_cons, hc, List.length_cons] at *
    omega

theorem keywordFromStr_eq_some_iff (s : List Char) (k : Keyword) :
    keywordFromStr s = some k ↔
      (s = ['i', 'f'] ∧ k = Keyword.If) ∨ (s = ['f', 'i'] ∧ k = Keyword.Fi) := by
  unfold keywordFromStr
  split_ifs with h1 h2
  · subst h1
    constructor
    · rintro ⟨rfl⟩
      exact Or.inl ⟨rfl, rfl⟩
    · rintro (⟨-, rfl⟩ | ⟨hbad, -⟩)
      · rfl
      · exact absurd hbad (by decide)
  · subst h2
    constructor
    · rintro ⟨rfl⟩
      exact Or.inr ⟨rfl, rfl⟩
    · rintro (⟨hbad, -⟩ | ⟨-, rfl⟩)
      · exact absurd hbad (by decide)
      · rfl
  · constructor
    · rintro ⟨⟩
    · rintro (⟨hbad, -⟩ | ⟨hbad, -⟩)
      · exact absurd hbad h1
      · exact absurd hbad h2

/-- The identifier text of each keyword, i.e. the exact source run that
`Keyword::from_str` maps to it. -/
def keywordText : Keyword → List Char
  | Keyword.If => ['i', 'f']
  | Keyword.Fi => ['f', 'i']

theorem keywordText_of_fromStr (s : List Char) (k : Keyword)
    (h : keywordFromStr s = some k) : s = keywordText k := by
  rcases (keywordFromStr_eq_some_iff s k).1 h with ⟨rfl, rfl⟩ | ⟨rfl, rfl⟩ <;> rfl

/-- The character slice `buffer[start..end]`: the characters from index
`s` (inclusive) to index `e` (exclusive). -/
def sliceOf (buffer : List Char) (s e : Nat) : List Char :=
  (buffer.drop s).take (e - s)

/-- The possible raw texts of an `Integer` token of value `v`: either
the hexadecimal shape (a digit, the mode character `x`, then a greedy
hex-digit run, the value parsed from the text after the first two
characters) or the decimal shape (a nonempty digit run parsed in base
10).  This is exactly what the numeric arm of the tokenizer consumes. -/
def consumedNumber (raw : List Char) (v : Int) : Prop :=
  (∃ d hs, raw = d :: 'x' :: hs ∧ isDigit10 d = true ∧
     (∀ h ∈ hs, isHexDigit h = true) ∧ fromStrRadix16 hs = some v) ∨
  (raw ≠ [] ∧ (∀ c ∈ raw, isDigit10 c = true) ∧ fromStrI64 raw = some v)

/-- The raw matched source text of each token variant, as described by
the specification: the full raw text for `String`, `Paren`, `Symbol`
and `Newline`, the identifier text for `Keyword` and `Identifier`, and
the raw literal text (`0x` prefix included) for `Integer`. -/
def matchesRaw : Token → List Char → Prop
  | Token.keyword k, raw => raw = keywordText k
  | Token.identifier s, raw => raw = s
  | Token.integer v, raw => consumedNumber raw v
  | Token.string s _, raw => raw = s
  | Token.paren c, raw => raw = [c]
  | Token.symbol s, raw => raw = s
  | Token.newline _, raw => raw = ['\n']

/-- The `Newline` payloads of a token sequence, in order. -/
def newlineLines (ts : List TokenWithInfo) : List Nat :=
  ts.filterMap (fun t =>
    match t.token with
    | Token.newline n => some n
    | _ => none)

/-- The total number of line-feed characters hidden inside the raw
texts of the `String` tokens of a sequence. -/
def stringNewlines (ts : List TokenWithInfo) : Nat :=
  (ts.map (fun t =>
    match t.token with
    | Token.string raw _ => raw.count '\n'
    | _ => 0)).sum

/-- Shape facts that hold of every token the drive loop emits: an
`Identifier` never holds keyword text, and a `Symbol` holds either a
single character or one of the two-character combinations. -/
def goodToken : Token → Prop
  | Token.identifier txt => keywordFromStr txt = none
  | Token.symbol sym =>
      sym.length = 1 ∨ ∃ a b, sym = [a, b] ∧ isTwoCharSymbol a b = true
  | _ => True

theorem scanNumber_sound (c : Char) (rest raw : List Char) (v : Int) (rest2 : List Char)
    (hd : isDigit10 c = true) (h : scanNumber c rest = some (raw, v, rest2)) :
    raw ++ rest2 = c :: rest ∧ consumedNumber raw v := by
  match rest with
  | [] =>
    simp only [scanNumber] at h
    cases hf : fromStrI64 [c] with
    | none => rw [hf] at h; exact absurd h (by simp)
    | some v0 =>
      rw [hf] at h
      simp only [Option.some.injEq, Prod.mk.injEq] at h
      obtain ⟨h1, h2, h3⟩ := h
      subst h1; subst h2; subst h3
      refine ⟨by simp, Or.inr ⟨by simp, ?_, hf⟩⟩
      intro d hd'
      simp only [List.mem_singleton] at hd'
      subst hd'
      exact hd
  | x :: rest1 =>
    simp only [scanNumber] at h
    by_cases hx : x = 'x'
    · subst hx
      simp only [if_true, List.drop_succ_cons, List.drop_zero] at h
      cases hf : fromStrRadix16 (consumeWhile isHexDigit rest1).1 with
      | none =>
        rw [hf] at h
        exact absurd h (by simp)
      | some v0 =>
        rw [hf] at h
        simp only [Option.some.injEq, Prod.mk.injEq] at h
        obtain ⟨h1, h2, h3⟩ := h
        subst h1; subst h2; subst h3
        constructor
        · simp [consumeWhile_append]
        · exact Or.inl ⟨c, (consumeWhile isHexDigit rest1).1, rfl, hd,
            consumeWhile_all isHexDigit rest1, hf⟩
    · simp only [hx, if_false] at h
      by_cases hdx : isDigit10 x
      · simp only [hdx, if_true] at h
        cases hf : fromStrI64 (c :: (consumeWhile isDigit10 (x :: rest1)).1) with
        | none => rw [hf] at h; exact absurd h (by simp)
        | some v0 =>
          rw [hf] at h
          simp only [Option.some.injEq, Prod.mk.injEq] at h
          obtain ⟨h1, h2, h3⟩ := h
          subst h1; subst h2; subst h3
          constructor
          · simp [consumeWhile_append]
          · refine Or.inr ⟨by simp, ?_, hf⟩
            intro d hd'
            simp only [List.mem_cons] at hd'
            rcases hd' with rfl | hd'
            · exact hd
            · exact consumeWhile_all isDigit10 (x :: rest1) d hd'
      · simp only [hdx, Bool.false_eq_true, if_false] at h
        cases hf : fromStrI64 [c] with
        | none => rw [hf] at h; exact absurd h (by simp)
        | some v0 =>
          rw [hf] at h
          simp only [Option.some.injEq, Prod.mk.injEq] at h
          obtain ⟨h1, h2, h3⟩ := h
          subst h1; subst h2; subst h3
          refine ⟨by simp, Or.inr ⟨by simp, ?_, hf⟩⟩
          intro d hd'
          simp only [List.mem_singleton] at hd'
          subst hd'
          exact hd

theorem consumedNumber_ne_nil (raw : List Char) (v : Int)
    (h : consumedNumber raw v) : raw ≠ [] := by
  rcases h with ⟨d, hs, rfl, -, -, -⟩ | ⟨hne, -, -⟩
  · simp
  · exact hne

theorem consumedNumber_no_newline (raw : List Char) (v : Int)
    (h : consumedNumber raw v) : ∀ c ∈ raw, ¬ c = '\n' := by
  rcases h with ⟨d, hs, rfl, hd, hhex, -⟩ | ⟨-, hdig, -⟩
  · intro c hc
    simp only [List.mem_cons] at hc
    rcases hc with rfl | rfl | hc
    · exact ne_newline_of_isDigit10 c hd
    · decide
    · exact ne_newline_of_isHexDigit c (hhex c hc)
  · intro c hc
    exact ne_newline_of_isDigit10 c (hdig c hc)


theorem drop_cons_succ (buffer rest : List Char) (c : Char) (i : Nat)
    (h : buffer.drop i = c :: rest) : buffer.drop (i + 1) = rest := by
  have h2 : (buffer.drop i).drop 1 = rest := by rw [h]; rfl
  rwa [List.drop_drop] at h2

theorem span_head (buffer : List Char) (hascii : ∀ c ∈ buffer, c.toNat < 128)
    (i : Nat) (raw rest' : List Char)
    (hdrop : buffer.drop i = raw ++ rest') (hne : raw ≠ []) :
    strLen raw = raw.length ∧ i < i + strLen raw ∧ i + strLen raw ≤ buffer.length ∧
      sliceOf buffer i (i + strLen raw) = raw ∧ buffer.drop (i + raw.length) = rest' := by
  have hsub : ∀ c ∈ raw ++ rest', c ∈ buffer := by
    intro c hc
    rw [← hdrop] at hc
    exact (List.drop_suffix i buffer).subset hc
  have hlen : strLen raw = raw.length :=
    strLen_eq_length raw (fun c hc => hascii c (hsub c (List.mem_append_left _ hc)))
  have hpos : 0 < raw.length := List.length_pos.mpr hne
  have hi : i ≤ buffer.length := by
    by_contra hgt
    push_neg at hgt
    rw [List.drop_eq_nil_of_le (Nat.le_of_lt hgt)] at hdrop
    exact hne (List.append_eq_nil.mp hdrop.symm).1
  have hlen2 : buffer.length - i = raw.length + rest'.length := by
    have := congrArg List.length hdrop
    simpa [List.length_drop] using this
  refine ⟨hlen, by omega, by omega, ?_, ?_⟩
  · rw [sliceOf, hdrop, hlen]
    have he : i + raw.length - i = raw.length := by omega
    rw [he]
    exact List.take_left raw rest'
  · have h2 : (buffer.drop i).drop raw.length = rest' := by
      rw [hdrop]
      exact List.drop_left raw rest'
    rwa [List.drop_drop] at h2

theorem tokenizeLoop_span (buffer : List Char) (hascii : ∀ c ∈ buffer, c.toNat < 128) :
    ∀ (i line : Nat) (rem : List Char) (ts : List TokenWithInfo),
      buffer.drop i = rem → tokenizeLoop buffer i line rem = some ts →
      ∀ t ∈ ts, t.buffer = buffer ∧ t.start < t.«end» ∧ t.«end» ≤ buffer.length ∧
        matchesRaw t.token (sliceOf buffer t.start t.«end») := by
  intro i line rem
  induction i, line, rem using tokenizeLoop.induct with
  | buffer => exact buffer
  | case1 i line =>
    intro ts _ hloop
    rw [tokenizeLoop_nil] at hloop
    injection hloop with h
    subst h
    simp
  | case2 i line rest ih =>
    intro ts hdrop hloop
    rw [tokenizeLoop_newline] at hloop
    rw [Option.map_eq_some'] at hloop
    obtain ⟨ts', hrec, rfl⟩ := hloop
    obtain ⟨hsl, hlt, hle, hslice, hdrop2⟩ :=
      span_head buffer hascii i ['\n'] rest (by simpa using hdrop) (by simp)
    have h1 : strLen ['\n'] = 1 := rfl
    rw [h1] at hlt hle hslice
    intro t ht
    rcases List.mem_cons.mp ht with rfl | ht'
    · exact ⟨rfl, hlt, hle, by simp only [matchesRaw]; exact hslice⟩
    · exact ih ts' (by simpa using hdrop2) hrec t ht'
  | case3 i line c rest h1 h2 r identifier ih =>
    intro ts hdrop hloop
    rw [tokenizeLoop_ident buffer i line c rest h1 h2] at hloop
    rw [Option.map_eq_some'] at hloop
    obtain ⟨ts', hrec, rfl⟩ := hloop
    have hdec : buffer.drop i = (c :: (consumeWhile isIdentCont rest).1) ++
        (consumeWhile isIdentCont rest).2 := by
      rw [hdrop]
      simp [consumeWhile_append]
    obtain ⟨hsl, hlt, hle, hslice, hdrop2⟩ :=
      span_head buffer hascii i (c :: (consumeWhile isIdentCont rest).1)
        (consumeWhile isIdentCont rest).2 hdec (by simp)
    intro t ht
    rcases List.mem_cons.mp ht with rfl | ht'
    · refine ⟨rfl, hlt, hle, ?_⟩
      split
      · next kw hk =>
        simp only [matchesRaw]
        rw [hslice]
        exact keywordText_of_fromStr _ kw hk
      · next hk =>
        simp only [matchesRaw]
        exact hslice
    · exact ih ts' hdrop2 hrec t ht'
  | case4 i line c rest h1 h2 h3 h4 =>
    intro ts hdrop hloop
    rw [tokenizeLoop_number_none buffer i line c rest h1 (by simpa using h2) h3 h4] at hloop
    exact absurd hloop (by simp)
  | case5 i line c rest h1 h2 h3 r3 hscan ih =>
    intro ts hdrop hloop
    obtain ⟨raw, v, rest2⟩ := r3
    rw [tokenizeLoop_number_some buffer i line c rest raw v rest2 h1 (by simpa using h2) h3
      hscan] at hloop
    rw [Option.map_eq_some'] at hloop
    obtain ⟨ts', hrec, rfl⟩ := hloop
    obtain ⟨happ, hnum⟩ := scanNumber_sound c rest raw v rest2 h3 hscan
    have hdec : buffer.drop i = raw ++ rest2 := by rw [hdrop, ← happ]
    obtain ⟨hsl, hlt, hle, hslice, hdrop2⟩ :=
      span_head buffer hascii i raw rest2 hdec (consumedNumber_ne_nil raw v hnum)
    intro t ht
    rcases List.mem_cons.mp ht with rfl | ht'
    · exact ⟨rfl, hlt, hle, by simp only [matchesRaw]; rw [hslice]; exact hnum⟩
    · exact ih ts' hdrop2 hrec t ht'
  | case6 i line c rest h1 h2 h3 h4 ih =>
    intro ts hdrop hloop
    rw [tokenizeLoop_paren buffer i line c rest h1 (by simpa using h2) (by simpa using h3)
      h4] at hloop
    rw [Option.map_eq_some'] at hloop
    obtain ⟨ts', hrec, rfl⟩ := hloop
    obtain ⟨hsl, hlt, hle, hslice, hdrop2⟩ :=
      span_head buffer hascii i [c] rest (by simpa using hdrop) (by simp)
    have h1' : strLen [c] = 1 := by rw [hsl]; rfl
    rw [h1'] at hlt hle hslice
    intro t ht
    rcases List.mem_cons.mp ht with rfl | ht'
    · exact ⟨rfl, hlt, hle, by simp only [matchesRaw]; exact hslice⟩
    · exact ih ts' (by simpa using hdrop2) hrec t ht'
  | case7 i line c rest h1 h2 h3 h4 h5 r raw ih =>
    intro ts hdrop hloop
    rw [tokenizeLoop_string buffer i line c rest h1 (by simpa using h2) (by simpa using h3)
      (by simpa using h4) h5] at hloop
    rw [Option.map_eq_some'] at hloop
    obtain ⟨ts', hrec, rfl⟩ := hloop
    have hdec : buffer.drop i = (c :: (scanString c rest).1) ++ (scanString c rest).2 := by
      rw [hdrop]
      simp [scanString_append]
    obtain ⟨hsl, hlt, hle, hslice, hdrop2⟩ :=
      span_head buffer hascii i (c :: (scanString c rest).1) (scanString c rest).2 hdec
        (by simp)
    intro t ht
    rcases List.mem_cons.mp ht with rfl | ht'
    · exact ⟨rfl, hlt, hle, by simp only [matchesRaw]; exact hslice⟩
    · exact ih ts' hdrop2 hrec t ht'
  | case8 i line c h1 h2 h3 h4 h5 h6 next rest1 h7 ih =>
    intro ts hdrop hloop
    rw [tokenizeLoop_symbol_two buffer i line c next rest1 h1 (by simpa using h2)
      (by simpa using h3) (by simpa using h4) (by simpa using h5) h6 h7] at hloop
    rw [Option.map_eq_some'] at hloop
    obtain ⟨ts', hrec, rfl⟩ := hloop
    obtain ⟨hsl, hlt, hle, hslice, hdrop2⟩ :=
      span_head buffer hascii i [c, next] rest1 (by simpa using hdrop) (by simp)
    intro t ht
    rcases List.mem_cons.mp ht with rfl | ht'
    · exact ⟨rfl, hlt, hle, by simp only [matchesRaw]; exact hslice⟩
    · exact ih ts' (by simpa using hdrop2) hrec t ht'
  | case9 i line c h1 h2 h3 h4 h5 h6 next rest1 h7 ih =>
    intro ts hdrop hloop
    rw [tokenizeLoop_symbol_one buffer i line c next rest1 h1 (by simpa using h2)
      (by simpa using h3) (by simpa using h4) (by simpa using h5) h6 (by simpa using h7)]
      at hloop
    rw [Option.map_eq_some'] at hloop
    obtain ⟨ts', hrec, rfl⟩ := hloop
    obtain ⟨hsl, hlt, hle, hslice, hdrop2⟩ :=
      span_head buffer hascii i [c] (next :: rest1) (by simpa using hdrop) (by simp)
    intro t ht
    rcases List.mem_cons.mp ht with rfl | ht'
    · exact ⟨rfl, hlt, hle, by simp only [matchesRaw]; exact hslice⟩
    · exact ih ts' (by simpa using hdrop2) hrec t ht'
  | case10 i line c h1 h2 h3 h4 h5 h6 ih =>
    intro ts hdrop hloop
    rw [tokenizeLoop_symbol_end buffer i line c h1 (by simpa using h2) (by simpa using h3)
      (by simpa using h4) (by simpa using h5) h6] at hloop
    rw [Option.map_eq_some'] at hloop
    obtain ⟨ts', hrec, rfl⟩ := hloop
    obtain ⟨hsl, hlt, hle, hslice, hdrop2⟩ :=
      span_head buffer hascii i [c] [] (by simpa using hdrop) (by simp)
    intro t ht
    rcases List.mem_cons.mp ht with rfl | ht'
    · exact ⟨rfl, hlt, hle, by simp only [matchesRaw]; exact hslice⟩
    · exact ih ts' (by simpa using hdrop2) hrec t ht'
  | case11 i line c rest h1 h2 h3 h4 h5 h6 ih =>
    intro ts hdrop hloop
    rw [tokenizeLoop_skip buffer i line c rest h1 (by simpa using h2) (by simpa using h3)
      (by simpa using h4) (by simpa using h5) (by simpa using h6)] at hloop
    exact ih ts (drop_cons_succ buffer rest c i hdrop) hloop


theorem newlineLines_nil : newlineLines [] = [] := rfl

theorem stringNewlines_nil : stringNewlines [] = 0 := rfl

theorem newlineLines_cons_newline (i e : Nat) (buf : List Char) (n : Nat)
    (ts : List TokenWithInfo) :
    newlineLines (⟨i, e, buf, Token.newline n⟩ :: ts) = n :: newlineLines ts := by
  simp [newlineLines]

theorem stringNewlines_cons_newline (i e : Nat) (buf : List Char) (n : Nat)
    (ts : List TokenWithInfo) :
    stringNewlines (⟨i, e, buf, Token.newline n⟩ :: ts) = stringNewlines ts := by
  simp [stringNewlines]

theorem newlineLines_cons_string (i e : Nat) (buf raw : List Char) (q : Char)
    (ts : List TokenWithInfo) :
    newlineLines (⟨i, e, buf, Token.string raw q⟩ :: ts) = newlineLines ts := by
  simp [newlineLines]

theorem stringNewlines_cons_string (i e : Nat) (buf raw : List Char) (q : Char)
    (ts : List TokenWithInfo) :
    stringNewlines (⟨i, e, buf, Token.string raw q⟩ :: ts) =
      raw.count '\n' + stringNewlines ts := by
  simp [stringNewlines]

theorem newlineLines_cons_integer (i e : Nat) (buf : List Char) (v : Int)
    (ts : List TokenWithInfo) :
    newlineLines (⟨i, e, buf, Token.integer v⟩ :: ts) = newlineLines ts := by
  simp [newlineLines]

theorem stringNewlines_cons_integer (i e : Nat) (buf : List Char) (v : Int)
    (ts : List TokenWithInfo) :
    stringNewlines (⟨i, e, buf, Token.integer v⟩ :: ts) = stringNewlines ts := by
  simp [stringNewlines]

theorem newlineLines_cons_paren (i e : Nat) (buf : List Char) (c : Char)
    (ts : List TokenWithInfo) :
    newlineLines (⟨i, e, buf, Token.paren c⟩ :: ts) = newlineLines ts := by
  simp [newlineLines]

theorem stringNewlines_cons_paren (i e : Nat) (buf : List Char) (c : Char)
    (ts : List TokenWithInfo) :
    stringNewlines (⟨i, e, buf, Token.paren c⟩ :: ts) = stringNewlines ts := by
  simp [stringNewlines]

theorem newlineLines_cons_symbol (i e : Nat) (buf sym : List Char)
    (ts : List TokenWithInfo) :
    newlineLines (⟨i, e, buf, Token.symbol sym⟩ :: ts) = newlineLines ts := by
  simp [newlineLines]

theorem stringNewlines_cons_symbol (i e : Nat) (buf sym : List Char)
    (ts : List TokenWithInfo) :
    stringNewlines (⟨i, e, buf, Token.symbol sym⟩ :: ts) = stringNewlines ts := by
  simp [stringNewlines]

theorem newlineLines_cons_identTok (i e : Nat) (buf s : List Char)
    (ts : List TokenWithInfo) :
    newlineLines (⟨i, e, buf,
      match keywordFromStr s with
      | some kw => Token.keyword kw
      | none => Token.identifier s⟩ :: ts) = newlineLines ts := by
  cases keywordFromStr s <;> simp [newlineLines]

theorem stringNewlines_cons_identTok (i e : Nat) (buf s : List Char)
    (ts : List TokenWithInfo) :
    stringNewlines (⟨i, e, buf,
      match keywordFromStr s with
      | some kw => Token.keyword kw
      | none => Token.identifier s⟩ :: ts) = stringNewlines ts := by
  cases keywordFromStr s <;> simp [stringNewlines]

theorem count_eq_zero_of_all_ne (l : List Char) (h : ∀ c ∈ l, ¬ c = '\n') :
    l.count '\n' = 0 := by
  rw [List.count_eq_zero]
  intro hmem
  exact h '\n' hmem rfl

theorem tokenizeLoop_newlines (buffer : List Char) :
    ∀ (i line : Nat) (rem : List Char) (ts : List TokenWithInfo),
      tokenizeLoop buffer i line rem = some ts →
      newlineLines ts = List.range' line (newlineLines ts).length ∧
      (newlineLines ts).length + stringNewlines ts = rem.count '\n' := by
  intro i line rem
  induction i, line, rem using tokenizeLoop.induct with
  | buffer => exact buffer
  | case1 i line =>
    intro ts hloop
    rw [tokenizeLoop_nil] at hloop
    injection hloop with h
    subst h
    simp [newlineLines_nil, stringNewlines_nil]
  | case2 i line rest ih =>
    intro ts hloop
    rw [tokenizeLoop_newline] at hloop
    rw [Option.map_eq_some'] at hloop
    obtain ⟨ts', hrec, rfl⟩ := hloop
    obtain ⟨ih1, ih2⟩ := ih ts' hrec
    rw [newlineLines_cons_newline, stringNewlines_cons_newline]
    constructor
    · rw [List.length_cons, List.range'_succ]
      exact congrArg (line :: ·) ih1
    · rw [List.length_cons, List.count_cons_self]
      omega
  | case3 i line c rest h1 h2 r identifier ih =>
    intro ts hloop
    rw [tokenizeLoop_ident buffer i line c rest h1 h2] at hloop
    rw [Option.map_eq_some'] at hloop
    obtain ⟨ts', hrec, rfl⟩ := hloop
    obtain ⟨ih1, ih2⟩ := ih ts' hrec
    have ih2' : (newlineLines ts').length + stringNewlines ts' =
        ((consumeWhile isIdentCont rest).2).count '\n' := ih2
    rw [newlineLines_cons_identTok, stringNewlines_cons_identTok]
    refine ⟨ih1, ?_⟩
    have hc1 : ((consumeWhile isIdentCont rest).1).count '\n' = 0 :=
      count_eq_zero_of_all_ne _ (fun d hd =>
        ne_newline_of_isIdentCont d (consumeWhile_all isIdentCont rest d hd))
    rw [List.count_cons_of_ne (fun h => h1 h.symm)]
    conv_rhs => rw [(consumeWhile_append isIdentCont rest).symm]
    rw [List.count_append]
    omega
  | case4 i line c rest h1 h2 h3 h4 =>
    intro ts hloop
    rw [tokenizeLoop_number_none buffer i line c rest h1 (by simpa using h2) h3 h4] at hloop
    exact absurd hloop (by simp)
  | case5 i line c rest h1 h2 h3 r3 hscan ih =>
    intro ts hloop
    obtain ⟨raw, v, rest2⟩ := r3
    rw [tokenizeLoop_number_some buffer i line c rest raw v rest2 h1 (by simpa using h2) h3
      hscan] at hloop
    rw [Option.map_eq_some'] at hloop
    obtain ⟨ts', hrec, rfl⟩ := hloop
    obtain ⟨ih1, ih2⟩ := ih ts' hrec
    have ih2' : (newlineLines ts').length + stringNewlines ts' = rest2.count '
' := ih2
    rw [newlineLines_cons_integer, stringNewlines_cons_integer]
    refine ⟨ih1, ?_⟩
    obtain ⟨happ, hnum⟩ := scanNumber_sound c rest raw v rest2 h3 hscan
    have hraw : raw.count '\n' = 0 :=
      count_eq_zero_of_all_ne _ (consumedNumber_no_newline raw v hnum)
    have hsum : (c :: rest).count '\n' = raw.count '\n' + rest2.count '\n' := by
      rw [← happ, List.count_append]
    omega
  | case6 i line c rest h1 h2 h3 h4 ih =>
    intro ts hloop
    rw [tokenizeLoop_paren buffer i line c rest h1 (by simpa using h2) (by simpa using h3)
      h4] at hloop
    rw [Option.map_eq_some'] at hloop
    obtain ⟨ts', hrec, rfl⟩ := hloop
    obtain ⟨ih1, ih2⟩ := ih ts' hrec
    rw [newlineLines_cons_paren, stringNewlines_cons_paren]
    refine ⟨ih1, ?_⟩
    rw [List.count_cons_of_ne (fun h => h1 h.symm)]
    omega
  | case7 i line c rest h1 h2 h3 h4 h5 r raw ih =>
    intro ts hloop
    rw [tokenizeLoop_string buffer i line c rest h1 (by simpa using h2) (by simpa using h3)
      (by simpa using h4) h5] at hloop
    rw [Option.map_eq_some'] at hloop
    obtain ⟨ts', hrec, rfl⟩ := hloop
    obtain ⟨ih1, ih2⟩ := ih ts' hrec
    have ih2' : (newlineLines ts').length + stringNewlines ts' =
        ((scanString c rest).2).count '\n' := ih2
    rw [newlineLines_cons_string, stringNewlines_cons_string]
    refine ⟨ih1, ?_⟩
    rw [List.count_cons_of_ne (fun h => h1 h.symm)]
    conv_rhs => rw [List.count_cons_of_ne (fun h => h1 h.symm),
      (scanString_append c rest).symm, List.count_append]
    omega
  | case8 i line c h1 h2 h3 h4 h5 h6 next rest1 h7 ih =>
    intro ts hloop
    rw [tokenizeLoop_symbol_two buffer i line c next rest1 h1 (by simpa using h2)
      (by simpa using h3) (by simpa using h4) (by simpa using h5) h6 h7] at hloop
    rw [Option.map_eq_some'] at hloop
    obtain ⟨ts', hrec, rfl⟩ := hloop
    obtain ⟨ih1, ih2⟩ := ih ts' hrec
    rw [newlineLines_cons_symbol, stringNewlines_cons_symbol]
    refine ⟨ih1, ?_⟩
    rw [List.count_cons_of_ne (fun h => h1 h.symm)]
    rw [List.count_cons_of_ne (fun h =>
      ne_newline_of_isTwoCharSymbol c next h7 h.symm)]
    omega
  | case9 i line c h1 h2 h3 h4 h5 h6 next rest1 h7 ih =>
    intro ts hloop
    rw [tokenizeLoop_symbol_one buffer i line c next rest1 h1 (by simpa using h2)
      (by simpa using h3) (by simpa using h4) (by simpa using h5) h6 (by simpa using h7)]
      at hloop
    rw [Option.map_eq_some'] at hloop
    obtain ⟨ts', hrec, rfl⟩ := hloop
    obtain ⟨ih1, ih2⟩ := ih ts' hrec
    rw [newlineLines_cons_symbol, stringNewlines_cons_symbol]
    refine ⟨ih1, ?_⟩
    rw [List.count_cons_of_ne (fun h => h1 h.symm)]
    omega
  | case10 i line c h1 h2 h3 h4 h5 h6 ih =>
    intro ts hloop
    rw [tokenizeLoop_symbol_end buffer i line c h1 (by simpa using h2) (by simpa using h3)
      (by simpa using h4) (by simpa using h5) h6] at hloop
    rw [Option.map_eq_some'] at hloop
    obtain ⟨ts', hrec, rfl⟩ := hloop
    obtain ⟨ih1, ih2⟩ := ih ts' hrec
    rw [newlineLines_cons_symbol, stringNewlines_cons_symbol]
    refine ⟨ih1, ?_⟩
    rw [List.count_cons_of_ne (fun h => h1 h.symm)]
    omega
  | case11 i line c rest h1 h2 h3 h4 h5 h6 ih =>
    intro ts hloop
    rw [tokenizeLoop_skip buffer i line c rest h1 (by simpa using h2) (by simpa using h3)
      (by simpa using h4) (by simpa using h5) (by simpa using h6)] at hloop
    obtain ⟨ih1, ih2⟩ := ih ts hloop
    refine ⟨ih1, ?_⟩
    rw [List.count_cons_of_ne (fun h => h1 h.symm)]
    omega


theorem tokenizeLoop_goodTokens (buffer : List Char) :
    ∀ (i line : Nat) (rem : List Char) (ts : List TokenWithInfo),
      tokenizeLoop buffer i line rem = some ts →
      ∀ t ∈ ts, goodToken t.token := by
  intro i line rem
  induction i, line, rem using tokenizeLoop.induct with
  | buffer => exact buffer
  | case1 i line =>
    intro ts hloop
    rw [tokenizeLoop_nil] at hloop
    injection hloop with h
    subst h
    simp
  | case2 i line rest ih =>
    intro ts hloop
    rw [tokenizeLoop_newline] at hloop
    rw [Option.map_eq_some'] at hloop
    obtain ⟨ts', hrec, rfl⟩ := hloop
    intro t ht
    rcases List.mem_cons.mp ht with rfl | ht'
    · trivial
    · exact ih ts' hrec t ht'
  | case3 i line c rest h1 h2 r identifier ih =>
    intro ts hloop
    rw [tokenizeLoop_ident buffer i line c rest h1 h2] at hloop
    rw [Option.map_eq_some'] at hloop
    obtain ⟨ts', hrec, rfl⟩ := hloop
    intro t ht
    rcases List.mem_cons.mp ht with rfl | ht'
    · show goodToken (match keywordFromStr (c :: (consumeWhile isIdentCont rest).1) with
        | some kw => Token.keyword kw
        | none => Token.identifier (c :: (consumeWhile isIdentCont rest).1))
      cases hk : keywordFromStr (c :: (consumeWhile isIdentCont rest).1) with
      | some kw => trivial
      | none => exact hk
    · exact ih ts' hrec t ht'
  | case4 i line c rest h1 h2 h3 h4 =>
    intro ts hloop
    rw [tokenizeLoop_number_none buffer i line c rest h1 (by simpa using h2) h3 h4] at hloop
    exact absurd hloop (by simp)
  | case5 i line c rest h1 h2 h3 r3 hscan ih =>
    intro ts hloop
    obtain ⟨raw, v, rest2⟩ := r3
    rw [tokenizeLoop_number_some buffer i line c rest raw v rest2 h1 (by simpa using h2) h3
      hscan] at hloop
    rw [Option.map_eq_some'] at hloop
    obtain ⟨ts', hrec, rfl⟩ := hloop
    intro t ht
    rcases List.mem_cons.mp ht with rfl | ht'
    · trivial
    · exact ih ts' hrec t ht'
  | case6 i line c rest h1 h2 h3 h4 ih =>
    intro ts hloop
    rw [tokenizeLoop_paren buffer i line c rest h1 (by simpa using h2) (by simpa using h3)
      h4] at hloop
    rw [Option.map_eq_some'] at hloop
    obtain ⟨ts', hrec, rfl⟩ := hloop
    intro t ht
    rcases List.mem_cons.mp ht with rfl | ht'
    · trivial
    · exact ih ts' hrec t ht'
  | case7 i line c rest h1 h2 h3 h4 h5 r raw ih =>
    intro ts hloop
    rw [tokenizeLoop_string buffer i line c rest h1 (by simpa using h2) (by simpa using h3)
      (by simpa using h4) h5] at hloop
    rw [Option.map_eq_some'] at hloop
    obtain ⟨ts', hrec, rfl⟩ := hloop
    intro t ht
    rcases List.mem_cons.mp ht with rfl | ht'
    · trivial
    · exact ih ts' hrec t ht'
  | case8 i line c h1 h2 h3 h4 h5 h6 next rest1 h7 ih =>
    intro ts hloop
    rw [tokenizeLoop_symbol_two buffer i line c next rest1 h1 (by simpa using h2)
      (by simpa using h3) (by simpa using h4) (by simpa using h5) h6 h7] at hloop
    rw [Option.map_eq_some'] at hloop
    obtain ⟨ts', hrec, rfl⟩ := hloop
    intro t ht
    rcases List.mem_cons.mp ht with rfl | ht'
    · exact Or.inr ⟨c, next, rfl, h7⟩
    · exact ih ts' hrec t ht'
  | case9 i line c h1 h2 h3 h4 h5 h6 next rest1 h7 ih =>
    intro ts hloop
    rw [tokenizeLoop_symbol_one buffer i line c next rest1 h1 (by simpa using h2)
      (by simpa using h3) (by simpa using h4) (by simpa using h5) h6 (by simpa using h7)]
      at hloop
    rw [Option.map_eq_some'] at hloop
    obtain ⟨ts', hrec, rfl⟩ := hloop
    intro t ht
    rcases List.mem_cons.mp ht with rfl | ht'
    · exact Or.inl rfl
    · exact ih ts' hrec t ht'
  | case10 i line c h1 h2 h3 h4 h5 h6 ih =>
    intro ts hloop
    rw [tokenizeLoop_symbol_end buffer i line c h1 (by simpa using h2) (by simpa using h3)
      (by simpa using h4) (by simpa using h5) h6] at hloop
    rw [Option.map_eq_some'] at hloop
    obtain ⟨ts', hrec, rfl⟩ := hloop
    intro t ht
    rcases List.mem_cons.mp ht with rfl | ht'
    · exact Or.inl rfl
    · exact ih ts' hrec t ht'
  | case11 i line c rest h1 h2 h3 h4 h5 h6 ih =>
    intro ts hloop
    rw [tokenizeLoop_skip buffer i line c rest h1 (by simpa using h2) (by simpa using h3)
      (by simpa using h4) (by simpa using h5) (by simpa using h6)] at hloop
    exact ih ts hloop

theorem tokenizeLoop_noDigit_total (buffer : List Char) :
    ∀ (i line : Nat) (rem : List Char),
      (∀ c ∈ rem, isDigit10 c = false) →
      ∃ ts, tokenizeLoop buffer i line rem = some ts := by
  intro i line rem
  induction i, line, rem using tokenizeLoop.induct with
  | buffer => exact buffer
  | case1 i line =>
    intro _
    exact ⟨[], tokenizeLoop_nil buffer i line⟩
  | case2 i line rest ih =>
    intro hnd
    obtain ⟨ts', hrec⟩ := ih (fun c hc => hnd c (by simp [hc]))
    exact ⟨_, by rw [tokenizeLoop_newline, hrec]; rfl⟩
  | case3 i line c rest h1 h2 r identifier ih =>
    intro hnd
    have hsub : ∀ d ∈ (consumeWhile isIdentCont rest).2, d ∈ rest := by
      intro d hd
      have hmem : d ∈ (consumeWhile isIdentCont rest).1 ++ (consumeWhile isIdentCont rest).2 :=
        List.mem_append_right _ hd
      rwa [consumeWhile_append] at hmem
    obtain ⟨ts', hrec⟩ := ih (fun d hd => hnd d (by simp [hsub d hd]))
    exact ⟨_, by rw [tokenizeLoop_ident buffer i line c rest h1 h2, hrec]; rfl⟩
  | case4 i line c rest h1 h2 h3 h4 =>
    intro hnd
    exact absurd h3 (by simp [hnd c (by simp)])
  | case5 i line c rest h1 h2 h3 r3 hscan ih =>
    intro hnd
    exact absurd h3 (by simp [hnd c (by simp)])
  | case6 i line c rest h1 h2 h3 h4 ih =>
    intro hnd
    obtain ⟨ts', hrec⟩ := ih (fun d hd => hnd d (by simp [hd]))
    exact ⟨_, by
      rw [tokenizeLoop_paren buffer i line c rest h1 (by simpa using h2) (by simpa using h3)
        h4, hrec]; rfl⟩
  | case7 i line c rest h1 h2 h3 h4 h5 r raw ih =>
    intro hnd
    have hsub : ∀ d ∈ (scanString c rest).2, d ∈ rest := by
      intro d hd
      have hmem : d ∈ (scanString c rest).1 ++ (scanString c rest).2 :=
        List.mem_append_right _ hd
      rwa [scanString_append] at hmem
    obtain ⟨ts', hrec⟩ := ih (fun d hd => hnd d (by simp [hsub d hd]))
    exact ⟨_, by
      rw [tokenizeLoop_string buffer i line c rest h1 (by simpa using h2) (by simpa using h3)
        (by simpa using h4) h5, hrec]; rfl⟩
  | case8 i line c h1 h2 h3 h4 h5 h6 next rest1 h7 ih =>
    intro hnd
    obtain ⟨ts', hrec⟩ := ih (fun d hd => hnd d (by simp [hd]))
    exact ⟨_, by
      rw [tokenizeLoop_symbol_two buffer i line c next rest1 h1 (by simpa using h2)
        (by simpa using h3) (by simpa using h4) (by simpa using h5) h6 h7, hrec]; rfl⟩
  | case9 i line c h1 h2 h3 h4 h5 h6 next rest1 h7 ih =>
    intro hnd
    obtain ⟨ts', hrec⟩ := ih (fun d hd => hnd d (by simp [hd]))
    exact ⟨_, by
      rw [tokenizeLoop_symbol_one buffer i line c next rest1 h1 (by simpa using h2)
        (by simpa using h3) (by simpa using h4) (by simpa using h5) h6 (by simpa using h7),
        hrec]; rfl⟩
  | case10 i line c h1 h2 h3 h4 h5 h6 ih =>
    intro hnd
    obtain ⟨ts', hrec⟩ := ih (by simp)
    exact ⟨_, by
      rw [tokenizeLoop_symbol_end buffer i line c h1 (by simpa using h2) (by simpa using h3)
        (by simpa using h4) (by simpa using h5) h6, hrec]; rfl⟩
  | case11 i line c rest h1 h2 h3 h4 h5 h6 ih =>
    intro hnd
    obtain ⟨ts', hrec⟩ := ih (fun d hd => hnd d (by simp [hd]))
    exact ⟨ts', by
      rw [tokenizeLoop_skip buffer i line c rest h1 (by simpa using h2) (by simpa using h3)
        (by simpa using h4) (by simpa using h5) (by simpa using h6)]
      exact hrec⟩


theorem quote_class (q : Char) (h : isQuote q = true) :
    ¬ q = '\n' ∧ isIdentStart q = false ∧ isDigit10 q = false ∧ isParen q = false := by
  simp only [isQuote, Bool.or_eq_true, decide_eq_true_iff] at h
  rcases h with (rfl | rfl) | rfl <;>
    exact ⟨by decide, by decide, by decide, by decide⟩

theorem fromStrRadix16_of_valid (hs : List Char) (hne : hs ≠ [])
    (hhex : ∀ h ∈ hs, isHexDigit h = true) (hbound : hexVal hs ≤ i64Max) :
    fromStrRadix16 hs = some ((hexVal hs : Int)) := by
  rw [fromStrRadix16]
  rw [if_neg (by simpa [List.isEmpty_iff] using hne)]
  rw [if_pos (by rw [List.all_eq_true]; exact hhex)]
  rw [if_pos hbound]

theorem scanNumber_hex (d : Char) (hs rest : List Char)
    (hne : hs ≠ []) (hhex : ∀ h ∈ hs, isHexDigit h = true)
    (hstop : ∀ r, rest.head? = some r → isHexDigit r = false)
    (hbound : hexVal hs ≤ i64Max) :
    scanNumber d ('x' :: (hs ++ rest)) = some (d :: 'x' :: hs, (hexVal hs : Int), rest) := by
  rw [scanNumber]
  rw [if_pos rfl]
  rw [consumeWhile_exact isHexDigit hs rest hhex hstop]
  simp only [List.drop_succ_cons, List.drop_zero]
  rw [fromStrRadix16_of_valid hs hne hhex hbound]

theorem tokenize_ok (s : List Char) (ts : List TokenWithInfo) :
    tokenize s = some (Except.ok ts) ↔ tokenizeLoop s 0 1 s = some ts := by
  rw [tokenize]
  cases h : tokenizeLoop s 0 1 s <;> simp

theorem tokenizeLoop_ws (buffer : List Char) :
    ∀ (rem : List Char) (i line : Nat),
      (∀ c ∈ rem, c.isWhitespace = true ∧ ¬ c = '\n') →
      tokenizeLoop buffer i line rem = some [] := by
  intro rem
  induction rem with
  | nil => intro i line _; exact tokenizeLoop_nil buffer i line
  | cons c rest ih =>
    intro i line h
    obtain ⟨hw, hn⟩ := h c (by simp)
    have hrest : ∀ d ∈ rest, d.isWhitespace = true ∧ ¬ d = '\n' :=
      fun d hd => h d (by simp [hd])
    have hcases : c = ' ' ∨ c = '\t' ∨ c = '\r' := by
      simp [Char.isWhitespace] at hw
      tauto
    rcases hcases with rfl | rfl | rfl <;>
      rw [tokenizeLoop_skip buffer i line _ rest (by decide) (by decide) (by decide)
        (by decide) (by decide) (by decide)] <;>
      exact ih (i + 1) line hrest


/-- Claim C1: the spec asserts that numeric-literal scanning never
panics.  The code violates this: on input `0x` the hex-digit run is
empty and `i64::from_str_radix("", 16).unwrap()` panics; on
`0xFFFFFFFFFFFFFFFF` the hex value exceeds `i64::MAX` and the parse
errs; on twenty nines the decimal parse overflows.  In the embedding a
panic is `none`. -/
theorem claim_C1 :
    tokenize ['0', 'x'] = none ∧
    tokenize "0xFFFFFFFFFFFFFFFF".data = none ∧
    tokenize "99999999999999999999".data = none := by
  refine ⟨?_, ?_, ?_⟩ <;>
    simp [tokenize, tokenizeLoop, scanNumber, consumeWhile, scanString, fromStrRadix16,
      fromStrI64, hexVal, decVal, hexDigitVal, i64Max, keywordFromStr, isIdentStart,
      isIdentCont, isDigit10, isHexDigit, isParen, isQuote, isSymbolStart, isTwoCharSymbol,
      strLen, charUtf8Len, dquote, squote, bquote, lbrace, rbrace]

/-- Claim C2 (counterexample): tokenize does not return at all on the
input `0x` — the numeric unwrap panics — so it does not return `Ok`. -/
theorem counterexample_C2 : (tokenize ['0', 'x']).isSome = false := by
  simp [tokenize, tokenizeLoop, scanNumber, consumeWhile, fromStrRadix16, fromStrI64,
    hexVal, decVal, hexDigitVal, i64Max, isIdentStart, isDigit10, isParen, isQuote,
    isSymbolStart, strLen, charUtf8Len, dquote, squote, bquote, lbrace, rbrace]

/-- Claim C2 (amended): the `Err` variant of the `Result` is never
returned — whenever `tokenize` returns, the result is `Ok` — and on
every input free of decimal digits (the only panic source is the
numeric arm) it does return `Ok`. -/
theorem claim_C2 :
    (∀ s : List Char, tokenize s = none ∨
      ∃ ts, tokenize s = some (Except.ok ts)) ∧
    (∀ s : List Char, (∀ c ∈ s, isDigit10 c = false) →
      ∃ ts, tokenize s = some (Except.ok ts)) := by
  constructor
  · intro s
    cases h : tokenizeLoop s 0 1 s with
    | none => exact Or.inl (by simp [tokenize, h])
    | some ts => exact Or.inr ⟨ts, by simp [tokenize, h]⟩
  · intro s hnd
    obtain ⟨ts, hts⟩ := tokenizeLoop_noDigit_total s 0 1 s hnd
    exact ⟨ts, (tokenize_ok s ts).mpr hts⟩

theorem claim_C2_witness :
    (∀ c ∈ ['a', 'b', '+'], isDigit10 c = false) ∧
    (tokenize ['a', 'b', '+']).isSome = true := by
  refine ⟨by decide, ?_⟩
  obtain ⟨ts, hts⟩ := claim_C2.2 ['a', 'b', '+'] (by decide)
  rw [hts]
  rfl

/-- Claim C3 (counterexample): the position invariant fails on
non-ASCII input.  On `'é'` (an e-acute inside single quotes) the token
end is `start + String::len(raw) = 4` — a byte length — while the
enumerate indices are character indices and the buffer holds only 3
characters, so `end ≤ len(buffer)` fails. -/
theorem counterexample_C3 :
    tokenize [squote, Char.ofNat 233, squote] =
      some (Except.ok [⟨0, 4, [squote, Char.ofNat 233, squote],
        Token.string [squote, Char.ofNat 233, squote] squote⟩]) ∧
    ¬ (4 ≤ List.length [squote, Char.ofNat 233, squote]) := by
  constructor
  · simp [tokenize, tokenizeLoop, scanNumber, consumeWhile, scanString, fromStrRadix16,
      fromStrI64, hexVal, decVal, hexDigitVal, i64Max, keywordFromStr, isIdentStart,
      isIdentCont, isDigit10, isHexDigit, isParen, isQuote, isSymbolStart, isTwoCharSymbol,
      strLen, charUtf8Len, dquote, squote, bquote, lbrace, rbrace]
  · decide

/-- Claim C3 (amended): for inputs whose characters are all ASCII
(single-byte UTF-8, so byte and character indices coincide), every
token satisfies `start < end ≤ len(buffer)`, carries the shared buffer,
and `buffer[start..end]` is exactly the token raw text described by
`matchesRaw`. -/
theorem claim_C3 : ∀ (s : List Char) (ts : List TokenWithInfo),
    (∀ c ∈ s, c.toNat < 128) → tokenize s = some (Except.ok ts) →
    ∀ t ∈ ts, t.buffer = s ∧ t.start < t.«end» ∧ t.«end» ≤ s.length ∧
      matchesRaw t.token (sliceOf s t.start t.«end») := by
  intro s ts hascii htok
  exact tokenizeLoop_span s hascii 0 1 s ts (by simp) ((tokenize_ok s ts).mp htok)

theorem claim_C3_witness :
    matchesRaw (Token.integer 12287) (sliceOf "124 0x2fFF".data 4 10) := by
  have h := claim_C3 "124 0x2fFF".data
    [⟨0, 3, "124 0x2fFF".data, Token.integer 124⟩,
     ⟨4, 10, "124 0x2fFF".data, Token.integer 12287⟩]
    (by decide)
    (by simp [tokenize, tokenizeLoop, scanNumber, consumeWhile, scanString, fromStrRadix16,
      fromStrI64, hexVal, decVal, hexDigitVal, i64Max, keywordFromStr, isIdentStart,
      isIdentCont, isDigit10, isHexDigit, isParen, isQuote, isSymbolStart, isTwoCharSymbol,
      strLen, charUtf8Len, dquote, squote, bquote, lbrace, rbrace])
    ⟨4, 10, "124 0x2fFF".data, Token.integer 12287⟩ (by simp)
  exact h.2.2.2

/-- Claim C4 (counterexample): a line feed inside a string literal is
swallowed by the string scan: on input of a line feed between two single quotes the only token is a
`String` token, there is no `Newline` token, yet the input holds one
line-feed character — so the token count does not equal the character
count. -/
theorem counterexample_C4 :
    tokenize [squote, '\n', squote] =
      some (Except.ok [⟨0, 3, [squote, '\n', squote],
        Token.string [squote, '\n', squote] squote⟩]) ∧
    newlineLines [⟨0, 3, [squote, '\n', squote],
        Token.string [squote, '\n', squote] squote⟩] = [] ∧
    List.count '\n' [squote, '\n', squote] = 1 := by
  refine ⟨?_, by decide, by decide⟩
  simp [tokenize, tokenizeLoop, scanNumber, consumeWhile, scanString, fromStrRadix16,
    fromStrI64, hexVal, decVal, hexDigitVal, i64Max, keywordFromStr, isIdentStart,
    isIdentCont, isDigit10, isHexDigit, isParen, isQuote, isSymbolStart, isTwoCharSymbol,
    strLen, charUtf8Len, dquote, squote, bquote, lbrace, rbrace]

/-- Claim C4 (amended): the `Newline` payloads are exactly the strictly
increasing sequence 1, 2, 3, …, and the number of `Newline` tokens plus
the number of line feeds hidden inside `String` raw texts equals the
number of line-feed characters of the input — newlines reached by the
drive loop each yield one token, those consumed inside strings do
not. -/
theorem claim_C4 : ∀ (s : List Char) (ts : List TokenWithInfo),
    tokenize s = some (Except.ok ts) →
    newlineLines ts = List.range' 1 (newlineLines ts).length ∧
    (newlineLines ts).length + stringNewlines ts = s.count '\n' := by
  intro s ts htok
  exact tokenizeLoop_newlines s 0 1 s ts ((tokenize_ok s ts).mp htok)

theorem claim_C4_witness :
    newlineLines [⟨0, 3, [squote, '\n', squote, '\n'],
        Token.string [squote, '\n', squote] squote⟩,
      ⟨3, 4, [squote, '\n', squote, '\n'], Token.newline 1⟩] =
      List.range' 1 (newlineLines [⟨0, 3, [squote, '\n', squote, '\n'],
        Token.string [squote, '\n', squote] squote⟩,
      ⟨3, 4, [squote, '\n', squote, '\n'], Token.newline 1⟩]).length ∧
    (newlineLines [⟨0, 3, [squote, '\n', squote, '\n'],
        Token.string [squote, '\n', squote] squote⟩,
      ⟨3, 4, [squote, '\n', squote, '\n'], Token.newline 1⟩]).length +
      stringNewlines [⟨0, 3, [squote, '\n', squote, '\n'],
        Token.string [squote, '\n', squote] squote⟩,
      ⟨3, 4, [squote, '\n', squote, '\n'], Token.newline 1⟩] =
      List.count '\n' [squote, '\n', squote, '\n'] :=
  claim_C4 [squote, '\n', squote, '\n']
    [⟨0, 3, [squote, '\n', squote, '\n'],
        Token.string [squote, '\n', squote] squote⟩,
      ⟨3, 4, [squote, '\n', squote, '\n'], Token.newline 1⟩]
    (by simp [tokenize, tokenizeLoop, scanNumber, consumeWhile, scanString, fromStrRadix16,
      fromStrI64, hexVal, decVal, hexDigitVal, i64Max, keywordFromStr, isIdentStart,
      isIdentCont, isDigit10, isHexDigit, isParen, isQuote, isSymbolStart, isTwoCharSymbol,
      strLen, charUtf8Len, dquote, squote, bquote, lbrace, rbrace])

/-- Claim C5: a Keyword token is emitted exactly for the two
case-sensitive table entries `if` and `fi`; every Identifier token
holds a run that is not in the keyword table; and the scenario
`if x == 1` yields Keyword(If), Identifier(x), Symbol(==), Integer(1)
in that order with those spans. -/
theorem claim_C5 :
    (∀ (s : List Char) (k : Keyword), keywordFromStr s = some k ↔
      (s = ['i', 'f'] ∧ k = Keyword.If) ∨ (s = ['f', 'i'] ∧ k = Keyword.Fi)) ∧
    (∀ (s : List Char) (ts : List TokenWithInfo), tokenize s = some (Except.ok ts) →
      ∀ t ∈ ts, ∀ txt, t.token = Token.identifier txt → keywordFromStr txt = none) ∧
    tokenize "if x == 1".data = some (Except.ok
      [⟨0, 2, "if x == 1".data, Token.keyword Keyword.If⟩,
       ⟨3, 4, "if x == 1".data, Token.identifier ['x']⟩,
       ⟨5, 7, "if x == 1".data, Token.symbol ['=', '=']⟩,
       ⟨8, 9, "if x == 1".data, Token.integer 1⟩]) := by
  refine ⟨keywordFromStr_eq_some_iff, ?_, ?_⟩
  · intro s ts htok t ht txt httok
    have hg := tokenizeLoop_goodTokens s 0 1 s ts ((tokenize_ok s ts).mp htok) t ht
    rw [httok] at hg
    exact hg
  · simp [tokenize, tokenizeLoop, scanNumber, consumeWhile, scanString, fromStrRadix16,
      fromStrI64, hexVal, decVal, hexDigitVal, i64Max, keywordFromStr, isIdentStart,
      isIdentCont, isDigit10, isHexDigit, isParen, isQuote, isSymbolStart, isTwoCharSymbol,
      strLen, charUtf8Len, dquote, squote, bquote, lbrace, rbrace]

theorem claim_C5_witness :
    keywordFromStr ['i', 'f'] = some Keyword.If ∧ keywordFromStr ['x'] = none := by
  constructor
  · exact (claim_C5.1 ['i', 'f'] Keyword.If).mpr (Or.inl ⟨rfl, rfl⟩)
  · exact claim_C5.2.1 "if x == 1".data _ claim_C5.2.2
      ⟨3, 4, "if x == 1".data, Token.identifier ['x']⟩ (by simp) ['x'] rfl

/-- Claim C6: a two-character Symbol is emitted exactly when the
current character and the lookahead concatenate to one of the ten fixed
pairs; otherwise the single character is emitted alone, and no symbol
ever exceeds two characters; `>>` is one Symbol and `>%` is two. -/
theorem claim_C6 :
    (∀ a b : Char, isTwoCharSymbol a b = true ↔
      [a, b] ∈ [['>', '>'], ['<', '<'], ['=', '='], ['!', '='], ['<', '='],
        ['>', '='], ['&', '&'], ['|', '|'], ['+', '='], ['-', '=']]) ∧
    (∀ (s : List Char) (ts : List TokenWithInfo), tokenize s = some (Except.ok ts) →
      ∀ t ∈ ts, ∀ sym, t.token = Token.symbol sym →
        sym.length = 1 ∨ ∃ a b, sym = [a, b] ∧ isTwoCharSymbol a b = true) ∧
    tokenize ['>', '>'] = some (Except.ok [⟨0, 2, ['>', '>'], Token.symbol ['>', '>']⟩]) ∧
    tokenize ['>', '%'] = some (Except.ok
      [⟨0, 1, ['>', '%'], Token.symbol ['>']⟩,
       ⟨1, 2, ['>', '%'], Token.symbol ['%']⟩]) := by
  refine ⟨?_, ?_, ?_, ?_⟩
  · intro a b
    constructor
    · intro h
      simp only [isTwoCharSymbol, Bool.or_eq_true, Bool.and_eq_true,
        decide_eq_true_iff] at h
      rcases h with hh | ⟨rfl, rfl⟩
      · rcases hh with hh | ⟨rfl, rfl⟩
        · rcases hh with ((((((⟨rfl, rfl⟩ | ⟨rfl, rfl⟩) | ⟨rfl, rfl⟩) | ⟨rfl, rfl⟩) | ⟨rfl, rfl⟩) | ⟨rfl, rfl⟩) | ⟨rfl, rfl⟩) | ⟨rfl, rfl⟩ <;> decide
        · decide
      · decide
    · intro h
      simp only [List.mem_cons, List.cons.injEq, and_true, List.not_mem_nil,
        or_false] at h
      rcases h with ⟨rfl, rfl⟩ | ⟨rfl, rfl⟩ | ⟨rfl, rfl⟩ | ⟨rfl, rfl⟩ | htail
      · decide
      · decide
      · decide
      · decide
      · rcases htail with ⟨rfl, rfl⟩ | ⟨rfl, rfl⟩ | ⟨rfl, rfl⟩ | ⟨rfl, rfl⟩ | ⟨rfl, rfl⟩ | ⟨rfl, rfl⟩ <;> decide
  · intro s ts htok t ht sym httok
    have hg := tokenizeLoop_goodTokens s 0 1 s ts ((tokenize_ok s ts).mp htok) t ht
    rw [httok] at hg
    exact hg
  · simp [tokenize, tokenizeLoop, scanNumber, consumeWhile, scanString, fromStrRadix16,
      fromStrI64, hexVal, decVal, hexDigitVal, i64Max, keywordFromStr, isIdentStart,
      isIdentCont, isDigit10, isHexDigit, isParen, isQuote, isSymbolStart, isTwoCharSymbol,
      strLen, charUtf8Len, dquote, squote, bquote, lbrace, rbrace]
  · simp [tokenize, tokenizeLoop, scanNumber, consumeWhile, scanString, fromStrRadix16,
      fromStrI64, hexVal, decVal, hexDigitVal, i64Max, keywordFromStr, isIdentStart,
      isIdentCont, isDigit10, isHexDigit, isParen, isQuote, isSymbolStart, isTwoCharSymbol,
      strLen, charUtf8Len, dquote, squote, bquote, lbrace, rbrace]

theorem claim_C6_witness : isTwoCharSymbol '>' '>' = true :=
  (claim_C6.1 '>' '>').mpr (by simp)

/-- Claim C7: when a quote character is opened and the same quote never
occurs again before end of input, the scan — from any loop state, and
at top level — emits exactly one String token whose raw text is the
opening quote followed by all remaining characters, returns success,
and produces no Newline token for the line feeds it swallows. -/
theorem claim_C7 : ∀ (buffer : List Char) (i line : Nat) (q : Char) (rest : List Char),
    isQuote q = true → q ∉ rest →
    tokenizeLoop buffer i line (q :: rest) =
      some [⟨i, i + strLen (q :: rest), buffer, Token.string (q :: rest) q⟩] ∧
    tokenize (q :: rest) =
      some (Except.ok [⟨0, strLen (q :: rest), q :: rest, Token.string (q :: rest) q⟩]) := by
  intro buffer i line q rest hq hnm
  obtain ⟨h1, h2, h3, h4⟩ := quote_class q hq
  have key : ∀ (b : List Char) (j lj : Nat),
      tokenizeLoop b j lj (q :: rest) =
        some [⟨j, j + strLen (q :: rest), b, Token.string (q :: rest) q⟩] := by
    intro b j lj
    rw [tokenizeLoop_string b j lj q rest h1 h2 h3 h4 hq]
    rw [scanString_of_not_mem q rest hnm]
    rw [tokenizeLoop_nil]
    rfl
  refine ⟨key buffer i line, ?_⟩
  rw [tokenize, key (q :: rest) 0 1]
  simp

theorem claim_C7_witness :
    tokenize [squote, 'a', '\n', 'b'] =
      some (Except.ok [⟨0, strLen [squote, 'a', '\n', 'b'], [squote, 'a', '\n', 'b'],
        Token.string [squote, 'a', '\n', 'b'] squote⟩]) :=
  (claim_C7 [squote, 'a', '\n', 'b'] 0 1 squote ['a', '\n', 'b'] (by decide) (by decide)).2

/-- Claim C8: the scenario input `124 0x2fFF` yields exactly the two
tokens Integer(124) and Integer(12287), the second parsed base-16 from
the digits after the `0x` prefix, with both letter cases accepted. -/
theorem claim_C8 :
    tokenize "124 0x2fFF".data = some (Except.ok
      [⟨0, 3, "124 0x2fFF".data, Token.integer 124⟩,
       ⟨4, 10, "124 0x2fFF".data, Token.integer 12287⟩]) := by
  simp [tokenize, tokenizeLoop, scanNumber, consumeWhile, scanString, fromStrRadix16,
    fromStrI64, hexVal, decVal, hexDigitVal, i64Max, keywordFromStr, isIdentStart,
    isIdentCont, isDigit10, isHexDigit, isParen, isQuote, isSymbolStart, isTwoCharSymbol,
    strLen, charUtf8Len, dquote, squote, bquote, lbrace, rbrace]

/-- Claim C9 (counterexample): the line feed is a whitespace character,
yet the whitespace-only input consisting of one line feed yields one
Newline token, not zero tokens. -/
theorem counterexample_C9 :
    tokenize ['\n'] = some (Except.ok [⟨0, 1, ['\n'], Token.newline 1⟩]) ∧
    ('\n'.isWhitespace = true) ∧
    ([(⟨0, 1, ['\n'], Token.newline 1⟩ : TokenWithInfo)].length ≠ 0) := by
  refine ⟨?_, by decide, by decide⟩
  rw [tokenize, tokenizeLoop_newline, tokenizeLoop_nil]
  rfl

/-- Claim C9 (amended): every input consisting solely of whitespace
characters other than the line feed (spaces, tabs, carriage returns —
the characters the scanner consumes silently) yields zero tokens. -/
theorem claim_C9 : ∀ s : List Char,
    (∀ c ∈ s, c.isWhitespace = true ∧ ¬ c = '\n') →
    tokenize s = some (Except.ok []) := by
  intro s h
  rw [tokenize, tokenizeLoop_ws s s 0 1 h]
  rfl

theorem claim_C9_witness : tokenize [' ', '\t', ' ', '\r'] = some (Except.ok []) :=
  claim_C9 [' ', '\t', ' ', '\r'] (by decide)

/-- Claim C10 (counterexample): with a nonzero leading digit and one or
more hex digits after the `x`, the claim promises an Integer token, but
when the base-16 value of the digits after the `x` exceeds `i64::MAX`
the unwrap panics instead — `5x` followed by sixteen `F`s returns
nothing. -/
theorem counterexample_C10 :
    tokenize "5xFFFFFFFFFFFFFFFF".data = none := by
  simp [tokenize, tokenizeLoop, scanNumber, consumeWhile, scanString, fromStrRadix16,
    fromStrI64, hexVal, decVal, hexDigitVal, i64Max, keywordFromStr, isIdentStart,
    isIdentCont, isDigit10, isHexDigit, isParen, isQuote, isSymbolStart, isTwoCharSymbol,
    strLen, charUtf8Len, dquote, squote, bquote, lbrace, rbrace]

/-- Claim C10 (amended): whenever any decimal digit is immediately
followed by `x` and a nonempty greedy hex-digit run whose base-16 value
fits in `i64`, the scanner enters hexadecimal mode and emits one
Integer token whose value is the base-16 interpretation of only the
characters after the `x` — the leading digit contributes nothing to the
value although it lies inside the token span; in particular `5x2f`
yields a single Integer token of value 47. -/
theorem claim_C10 :
    (∀ (d : Char) (hs rest : List Char), hs ≠ [] →
      (∀ h ∈ hs, isHexDigit h = true) →
      (∀ r, rest.head? = some r → isHexDigit r = false) →
      hexVal hs ≤ i64Max →
      scanNumber d ('x' :: (hs ++ rest)) =
        some (d :: 'x' :: hs, (hexVal hs : Int), rest)) ∧
    (∀ (buffer : List Char) (i line : Nat) (d : Char) (hs rest : List Char),
      isDigit10 d = true → hs ≠ [] →
      (∀ h ∈ hs, isHexDigit h = true) →
      (∀ r, rest.head? = some r → isHexDigit r = false) →
      hexVal hs ≤ i64Max →
      tokenizeLoop buffer i line (d :: 'x' :: (hs ++ rest)) =
        (tokenizeLoop buffer (i + (d :: 'x' :: hs).length) line rest).map
          (fun ts => ⟨i, i + strLen (d :: 'x' :: hs), buffer,
            Token.integer ((hexVal hs : Int))⟩ :: ts)) ∧
    tokenize "5x2f".data = some (Except.ok
      [⟨0, 4, "5x2f".data, Token.integer 47⟩]) := by
  refine ⟨?_, ?_, ?_⟩
  · intro d hs rest hne hhex hstop hbound
    exact scanNumber_hex d hs rest hne hhex hstop hbound
  · intro buffer i line d hs rest hd hne hhex hstop hbound
    exact tokenizeLoop_number_some buffer i line d ('x' :: (hs ++ rest))
      (d :: 'x' :: hs) ((hexVal hs : Int)) rest
      (ne_newline_of_isDigit10 d hd) (isIdentStart_eq_false_of_isDigit10 d hd) hd
      (scanNumber_hex d hs rest hne hhex hstop hbound)
  · simp [tokenize, tokenizeLoop, scanNumber, consumeWhile, scanString, fromStrRadix16,
      fromStrI64, hexVal, decVal, hexDigitVal, i64Max, keywordFromStr, isIdentStart,
      isIdentCont, isDigit10, isHexDigit, isParen, isQuote, isSymbolStart, isTwoCharSymbol,
      strLen, charUtf8Len, dquote, squote, bquote, lbrace, rbrace]

theorem claim_C10_witness :
    scanNumber '5' ('x' :: (['2', 'f'] ++ [])) =
      some (['5', 'x', '2', 'f'], (hexVal ['2', 'f'] : Int), []) :=
  claim_C10.1 '5' ['2', 'f'] [] (by decide) (by decide) (by decide) (by decide)

end Rush
